import Mathlib

/-!
Verification of the layout-to-feature-to-semantic pipeline of the
sciencebeam-parser / pygrobid repository, via a shallow embedding of the
relevant Python source files into Lean.

Strings are modelled as lists of characters (`PyStr`), floats as rationals
(`ℚ`, exact arithmetic), fallible operations as `Option`/`Except`.
-/

/-- Python strings are modelled as lists of characters. -/
abbrev PyStr := List Char

/-- Python's notion of a whitespace character (`str.isspace` on the
characters relevant here). -/
def pyIsSpaceChar (c : Char) : Bool := c.isWhitespace

/-- `True` iff the Python string is falsy after `.strip()`, i.e. every
character is whitespace (this includes the empty string). -/
def isWhitespaceOnly (s : PyStr) : Bool := s.all pyIsSpaceChar

/-- Concatenation of a list of strings (`''.join(...)`). -/
def concatAll (ss : List PyStr) : PyStr := ss.foldr (· ++ ·) []

/-! ## Geometry: `sciencebeam_parser/utils/bounding_box.py` -/

/-- `BoundingBox` from `sciencebeam_parser/utils/bounding_box.py`:
a named tuple of x, y, width, height (floats, modelled as `ℚ`). -/
structure BoundingBox where
  x : ℚ
  y : ℚ
  width : ℚ
  height : ℚ
deriving DecidableEq, Repr

/-- `BoundingBox.is_empty`: `not self.width or not self.height`
(Python truthiness: a float is falsy iff it equals 0). -/
def BoundingBox.isEmpty (b : BoundingBox) : Bool :=
  b.width = 0 ∨ b.height = 0

/-- `BoundingBox.include`: the other box if this one is empty, this box if
the other is empty, otherwise the bounding hull. -/
def BoundingBox.include (self other : BoundingBox) : BoundingBox :=
  if other.isEmpty then self
  else if self.isEmpty then other
  else
    let x := min self.x other.x
    let y := min self.y other.y
    let w := max (self.x + self.width) (other.x + other.width) - x
    let h := max (self.y + self.height) (other.y + other.height) - y
    ⟨x, y, w, h⟩

/-- `EMPTY_BOUNDING_BOX = BoundingBox(0, 0, 0, 0)`. -/
def emptyBoundingBox : BoundingBox := ⟨0, 0, 0, 0⟩

/-- Python's `functools.reduce` without an initial value: raises `TypeError`
on an empty iterable (modelled as `none`), otherwise left-folds the
function over the remaining elements starting from the first. -/
def pyReduce (f : α → α → α) : List α → Option α
  | [] => none
  | x :: xs => some (xs.foldl f x)

/-- `merge_bounding_boxes`: `reduce(BoundingBox.include, iterable)`. -/
def mergeBoundingBoxes (boxes : List BoundingBox) : Option BoundingBox :=
  pyReduce BoundingBox.include boxes

/-! ## Layout document model: `pygrobid/document/layout_document.py` -/

/-- `LayoutFont` dataclass: identity, family name, size, bold/italics flags. -/
structure LayoutFont where
  fontId : PyStr
  fontFamily : Option PyStr := none
  fontSize : Option ℚ := none
  isBold : Option Bool := none
  isItalics : Option Bool := none
deriving DecidableEq, Repr

/-- `EMPTY_FONT = LayoutFont(font_id='_EMPTY')`. -/
def emptyFont : LayoutFont := { fontId := ['_', 'E', 'M', 'P', 'T', 'Y'] }

/-- `LayoutCoordinates` named tuple: x, y, width, height. -/
structure LayoutCoordinates where
  x : ℚ
  y : ℚ
  width : ℚ
  height : ℚ
deriving DecidableEq, Repr

/-- `LayoutToken` dataclass: text, font, trailing whitespace, optional
coordinates. -/
structure LayoutToken where
  text : PyStr
  font : LayoutFont := emptyFont
  whitespace : PyStr := [' ']
  coordinates : Option LayoutCoordinates := none
deriving DecidableEq, Repr

/-- `get_relative_coordinates`: proportionally re-derives a sub-token's
coordinates from a character offset and total tokenized text length. -/
def getRelativeCoordinates (coordinates : Option LayoutCoordinates)
    (text : PyStr) (textCharacterOffset : ℕ) (totalTextLength : ℕ) :
    Option LayoutCoordinates :=
  match coordinates with
  | none => none
  | some c => some {
      x := c.x + c.width * textCharacterOffset / totalTextLength,
      y := c.y,
      width := c.width * text.length / totalTextLength,
      height := c.height }

/-- Loop state of the `for token_text in token_texts` loop of
`retokenize_layout_token`: the `texts_with_whitespace` accumulator,
`pending_token_text`, `pending_whitespace`, `text_character_offset` and
`pending_text_character_offset`. -/
structure RetokenizeState where
  acc : List (PyStr × PyStr × ℕ)
  pendingTokenText : PyStr
  pendingWhitespace : PyStr
  textCharacterOffset : ℕ
  pendingTextCharacterOffset : ℕ
deriving Repr

/-- One iteration of the `for token_text in token_texts` loop of
`retokenize_layout_token`. -/
def retokenizeStep (st : RetokenizeState) (tokenText : PyStr) : RetokenizeState :=
  if isWhitespaceOnly tokenText then
    { st with
      pendingWhitespace := st.pendingWhitespace ++ tokenText,
      textCharacterOffset := st.textCharacterOffset + tokenText.length }
  else
    { acc :=
        if st.pendingTokenText ≠ [] then
          st.acc ++ [(st.pendingTokenText, st.pendingWhitespace,
            st.pendingTextCharacterOffset)]
        else st.acc,
      pendingTokenText := tokenText,
      pendingWhitespace := [],
      textCharacterOffset := st.textCharacterOffset + tokenText.length,
      pendingTextCharacterOffset := st.textCharacterOffset }

/-- `retokenize_layout_token`, parameterized by the tokenizer function.
Note that, as in the source, the final list comprehension passes the outer
variable `pending_token_text` (the last non-whitespace token text), not the
per-item `token_text`, to `get_relative_coordinates`. -/
def retokenizeLayoutToken (tokenizeFn : PyStr → List PyStr)
    (layoutToken : LayoutToken) : List LayoutToken :=
  if isWhitespaceOnly layoutToken.text then []
  else
    let tokenTexts := tokenizeFn layoutToken.text
    if tokenTexts = [layoutToken.text] then [layoutToken]
    else
      let totalTextLength := (tokenTexts.map List.length).sum
      let st := tokenTexts.foldl retokenizeStep ⟨[], [], [], 0, 0⟩
      let finalPendingWhitespace := st.pendingWhitespace ++ layoutToken.whitespace
      let textsWithWhitespace :=
        if st.pendingTokenText ≠ [] then
          st.acc ++ [(st.pendingTokenText, finalPendingWhitespace,
            st.pendingTextCharacterOffset)]
        else st.acc
      textsWithWhitespace.map (fun tw =>
        { text := tw.1,
          font := layoutToken.font,
          whitespace := tw.2.1,
          coordinates := getRelativeCoordinates layoutToken.coordinates
            st.pendingTokenText tw.2.2 totalTextLength })

/-- `join_layout_tokens`: concatenates text plus trailing whitespace of each
token, except that the last token's whitespace is dropped. -/
def joinLayoutTokens (layoutTokens : List LayoutToken) : PyStr :=
  concatAll ((List.range layoutTokens.length).zip layoutTokens |>.map
    (fun it =>
      if it.1 < layoutTokens.length - 1 then it.2.text ++ it.2.whitespace
      else it.2.text))

/-- Join of tokens as used by the round-trip claim: each token's text
followed by its trailing whitespace, the last token's whitespace included. -/
def joinTokensWithTrailingWhitespace (layoutTokens : List LayoutToken) : PyStr :=
  concatAll (layoutTokens.map (fun t => t.text ++ t.whitespace))

/-- `LayoutLine` dataclass: ordered sequence of tokens. -/
structure LayoutLine where
  tokens : List LayoutToken
deriving DecidableEq, Repr

/-- `LayoutLine.flat_map_layout_tokens`. -/
def LayoutLine.flatMapLayoutTokens (l : LayoutLine)
    (fn : LayoutToken → List LayoutToken) : LayoutLine :=
  ⟨(l.tokens.map fn).flatten⟩

/-- `LayoutBlock` dataclass: ordered sequence of lines. -/
structure LayoutBlock where
  lines : List LayoutLine
deriving DecidableEq, Repr

/-- `LayoutBlock.flat_map_layout_tokens`. -/
def LayoutBlock.flatMapLayoutTokens (b : LayoutBlock)
    (fn : LayoutToken → List LayoutToken) : LayoutBlock :=
  ⟨b.lines.map (·.flatMapLayoutTokens fn)⟩

/-- `LayoutPage` dataclass: ordered sequence of blocks. -/
structure LayoutPage where
  blocks : List LayoutBlock
deriving DecidableEq, Repr

/-- `LayoutPage.flat_map_layout_tokens`. -/
def LayoutPage.flatMapLayoutTokens (p : LayoutPage)
    (fn : LayoutToken → List LayoutToken) : LayoutPage :=
  ⟨p.blocks.map (·.flatMapLayoutTokens fn)⟩

/-- `LayoutDocument` dataclass: ordered sequence of pages. -/
structure LayoutDocument where
  pages : List LayoutPage
deriving DecidableEq, Repr

/-- `LayoutDocument.flat_map_layout_tokens`. -/
def LayoutDocument.flatMapLayoutTokens (d : LayoutDocument)
    (fn : LayoutToken → List LayoutToken) : LayoutDocument :=
  ⟨d.pages.map (·.flatMapLayoutTokens fn)⟩

/-! ## Per-token features: `pygrobid/models/data.py` -/

/-- Python `str.islower` on a single character (ASCII letters). -/
def pyIsLower (c : Char) : Bool := c.isLower

/-- Python `str.isupper` on a single character (ASCII letters). -/
def pyIsUpper (c : Char) : Bool := c.isUpper

/-- Python `str.isdigit` on a single character. -/
def pyIsDigitChar (c : Char) : Bool := c.isDigit

/-- Python `text.isdigit()`: non-empty and every character a digit. -/
def pyStrIsDigit (s : PyStr) : Bool := !s.isEmpty && s.all pyIsDigitChar

/-- `get_digit_feature`. -/
def getDigitFeature (text : PyStr) : String :=
  if pyStrIsDigit text then "ALLDIGIT"
  else if text.any pyIsDigitChar then "CONTAINSDIGITS"
  else "NODIGIT"

/-- `get_capitalisation_feature`: ALLCAP when the text is non-empty and has
no lowercase character; INITCAP when the first character is uppercase;
otherwise NOCAPS. -/
def getCapitalisationFeature (text : PyStr) : String :=
  if !text.isEmpty && text.all (fun c => !pyIsLower c) then "ALLCAP"
  else
    match text with
    | [] => "NOCAPS"
    | c :: _ => if pyIsUpper c then "INITCAP" else "NOCAPS"

/-- `CommonLayoutTokenFeatures.get_capitalisation_status`: forces NOCAPS for
all-digit text, otherwise `get_capitalisation_feature`. -/
def getCapitalisationStatus (text : PyStr) : String :=
  if getDigitFeature text = "ALLDIGIT" then "NOCAPS"
  else getCapitalisationFeature text

/-- `get_line_status` from `pygrobid/models/data.py`.
Indices and counts are naturals; every call site passes
`token_index < token_count`, so the `ℕ` truncation `0 - 1 = 0` is never
exercised. -/
def getLineStatus (tokenIndex tokenCount : ℕ) : String :=
  if tokenIndex = tokenCount - 1 then "LINEEND"
  else if tokenIndex = 0 then "LINESTART"
  else "LINEIN"

/-- `get_block_status` from `pygrobid/models/data.py`. -/
def getBlockStatus (lineIndex lineCount : ℕ) (lineStatus : String) : String :=
  if lineIndex = lineCount - 1 && lineStatus = "LINEEND" then "BLOCKEND"
  else if lineIndex = 0 && lineStatus = "LINESTART" then "BLOCKSTART"
  else "BLOCKIN"

/-- `get_str_bool_feature_value`: `'1' if value else '0'` (None and False
are both falsy). -/
def getStrBoolFeatureValue (value : Option Bool) : String :=
  if value = some true then "1" else "0"

/-- `get_token_font_status`. -/
def getTokenFontStatus (previousToken : Option LayoutToken)
    (currentToken : LayoutToken) : String :=
  match previousToken with
  | none => "NEWFONT"
  | some p =>
    if currentToken.font.fontFamily = p.font.fontFamily then "SAMEFONT"
    else "NEWFONT"

/-- `get_token_font_size_feature`: HIGHERFONT when there is no previous
token or either font size is falsy (None or 0.0). -/
def getTokenFontSizeFeature (previousToken : Option LayoutToken)
    (currentToken : LayoutToken) : String :=
  match previousToken with
  | none => "HIGHERFONT"
  | some p =>
    match p.font.fontSize, currentToken.font.fontSize with
    | some a, some b =>
      if a = 0 ∨ b = 0 then "HIGHERFONT"
      else if a < b then "HIGHERFONT"
      else if b < a then "LOWERFONT"
      else "SAMEFONTSIZE"
    | _, _ => "HIGHERFONT"

/-- `feature_linear_scaling_int`: linear-scaled integer bin. The source
computes `floor((pos / total) * bin_count)` with float division; on the
natural-number inputs used here this is exactly `pos * bin_count / total`
in integer division. -/
def featureLinearScalingInt (pos total binCount : ℕ) : ℕ :=
  if pos ≥ total then binCount
  else if pos = 0 then 0
  else pos * binCount / total

/-! ## Segmentation model data: `pygrobid/models/segmentation/data.py` -/

/-- Python `str.strip()`: remove leading and trailing whitespace. -/
def pyStrip (s : PyStr) : PyStr :=
  ((s.dropWhile pyIsSpaceChar).reverse.dropWhile pyIsSpaceChar).reverse

/-- `NBSP`. -/
def nbspChar : Char := ' '

/-- `format_feature_text`: strip, then replace every space or tab by NBSP. -/
def formatFeatureText (text : PyStr) : PyStr :=
  (pyStrip text).map (fun c => if c = ' ' ∨ c = '\t' then nbspChar else c)

/-- `NBBINS_POSITION = 12`. -/
def nbbinsPosition : ℕ := 12

/-- Modelled from the spec: the `_LINESCALE` bin count imported by
`pygrobid/models/segmentation/data.py` from a module that is not part of
the sources; only its existence as a fixed bin-count constant matters for
the claims treated here (its value does not). -/
def segLineScale : ℕ := 10

/-- `get_block_status` from `pygrobid/models/segmentation/data.py`
(line-level variant, no line-status argument). -/
def segGetBlockStatus (lineIndex lineCount : ℕ) : String :=
  if lineIndex = 0 then "BLOCKSTART"
  else if lineIndex = lineCount - 1 then "BLOCKEND"
  else "BLOCKIN"

/-- `get_page_status` from `pygrobid/models/segmentation/data.py`. -/
def getPageStatus (blockIndex blockCount : ℕ) (blockStatus : String) : String :=
  if blockIndex = 0 && blockStatus = "BLOCKSTART" then "PAGESTART"
  else if blockIndex = blockCount - 1 && blockStatus = "BLOCKEND" then "PAGEEND"
  else "PAGEIN"

/-- The state of a `SegmentationLineFeatures` object at the moment one
feature row is produced. Fields whose computing getter is defined in the
sources are kept as raw data (indices, counts, tokens, line text); the
remaining getters (`get_lower_token_text`, the 1–4 character affixes,
`get_capitalisation_status_using_allcap`,
`get_digit_status_using_containsdigits`,
`get_dummy_str_relative_page_position`, the line punctuation profile pair,
and the bitmap/vector dummies) live in a module that is not part of the
sources and are modelled from the spec as already-computed string-valued
fields (the spec fixes only that each is a single feature column). -/
structure SegmentationLineFeatures where
  layoutToken : LayoutToken
  previousLayoutToken : Option LayoutToken := none
  tokenText : PyStr := []
  secondTokenText : PyStr := []
  lowerTokenText : PyStr := []
  affix1 : PyStr := []
  affix2 : PyStr := []
  affix3 : PyStr := []
  affix4 : PyStr := []
  pageBlockIndex : ℕ := 0
  pageBlockCount : ℕ := 0
  blockLineIndex : ℕ := 0
  blockLineCount : ℕ := 0
  capitalisationStatusUsingAllcap : String := ""
  digitStatusUsingContainsdigits : String := ""
  documentTokenIndex : ℕ := 0
  documentTokenCount : ℕ := 0
  dummyRelativePagePosition : String := ""
  linePunctuationProfile : String := ""
  linePunctuationProfileLength : String := ""
  lineText : PyStr := []
  maxBlockLineTextLength : ℕ := 0

/-- The 34-element `line_features` list built by
`SegmentationDataGenerator.iter_model_data_for_layout_document`, one entry
per source list element in order. -/
def segmentationLineFeaturesList (f : SegmentationLineFeatures) : List String :=
  [ String.mk f.tokenText,
    String.mk (if f.secondTokenText ≠ [] then f.secondTokenText else f.tokenText),
    String.mk f.lowerTokenText,
    String.mk f.affix1,
    String.mk f.affix2,
    String.mk f.affix3,
    String.mk f.affix4,
    segGetBlockStatus f.blockLineIndex f.blockLineCount,
    getPageStatus f.pageBlockIndex f.pageBlockCount
      (segGetBlockStatus f.blockLineIndex f.blockLineCount),
    getTokenFontStatus f.previousLayoutToken f.layoutToken,
    getTokenFontSizeFeature f.previousLayoutToken f.layoutToken,
    getStrBoolFeatureValue f.layoutToken.font.isBold,
    getStrBoolFeatureValue f.layoutToken.font.isItalics,
    f.capitalisationStatusUsingAllcap,
    f.digitStatusUsingContainsdigits,
    getStrBoolFeatureValue (some (f.tokenText.length = 1)),
    "0", "0", "0", "0", "0", "0", "0",
    toString (featureLinearScalingInt f.documentTokenIndex
      f.documentTokenCount nbbinsPosition),
    f.dummyRelativePagePosition,
    f.linePunctuationProfile,
    f.linePunctuationProfileLength,
    toString (featureLinearScalingInt f.lineText.length
      f.maxBlockLineTextLength segLineScale),
    "0", "0", "0", "0", "1",
    String.mk (formatFeatureText f.lineText) ]

/-- The per-row body of
`SegmentationDataGenerator.iter_model_data_for_layout_document`: build the
feature list, raise (`.error`) when its length is not 34, otherwise yield
the space-joined data line. -/
def segmentationModelDataRow (f : SegmentationLineFeatures) :
    Except String String :=
  let lineFeatures := segmentationLineFeaturesList f
  if lineFeatures.length ≠ 34 then
    Except.error "expected features to have 34 features"
  else
    Except.ok (String.intercalate " " lineFeatures)

/-! ## TEI serialization: `pygrobid/document/tei_document.py` -/

/-- An item yielded by `iter_layout_block_tei_children`: a plain string, an
attributes dict, or an XML element (tag, attributes, children). -/
inductive TeiNode where
  | textNode : PyStr → TeiNode
  | attrsNode : List (String × String) → TeiNode
  | elem : String → List (String × String) → List TeiNode → TeiNode

/-- `get_required_styles`: bold then italic, from the token's font flags
(Python truthiness: `None` and `False` both skip the style). -/
def getRequiredStyles (layoutToken : LayoutToken) : List String :=
  (if layoutToken.font.isBold = some true then ["bold"] else [])
    ++ (if layoutToken.font.isItalics = some true then ["italic"] else [])

/-- `get_element_for_styles`: plain text for no styles, otherwise `hi`
elements nested so that the first listed style is outermost. -/
def getElementForStyles (styles : List String) (text : PyStr) : TeiNode :=
  styles.foldr
    (fun style inner => TeiNode.elem "hi" [("rend", style)] [inner])
    (TeiNode.textNode text)

/-- The mutable state of `iter_layout_block_tei_children`: items yielded so
far, `pending_styles`, `pending_text` and `pending_whitespace`. -/
structure TeiPendingState where
  out : List TeiNode
  pendingStyles : List String
  pendingText : PyStr
  pendingWhitespace : PyStr

/-- The per-token body of the loop in `iter_layout_block_tei_children`. -/
def teiStep (st : TeiPendingState) (token : LayoutToken) : TeiPendingState :=
  let requiredStyles := getRequiredStyles token
  let st :=
    if requiredStyles ≠ st.pendingStyles then
      { out := st.out
          ++ (if st.pendingText ≠ [] then
                [getElementForStyles st.pendingStyles st.pendingText]
              else [])
          ++ (if st.pendingWhitespace ≠ [] then
                [TeiNode.textNode st.pendingWhitespace]
              else []),
        pendingStyles := requiredStyles,
        pendingText := [],
        pendingWhitespace := [] }
    else st
  let newPendingText :=
    if st.pendingWhitespace ≠ [] then st.pendingText ++ st.pendingWhitespace
    else st.pendingText
  { st with
    pendingText := newPendingText ++ token.text,
    pendingWhitespace := token.whitespace }

/-- `iter_layout_block_tei_children`. When `enable_coordinates` is set the
source first yields `{'coords': format_coordinates_list(...)}` computed by
`LayoutBlock.get_merged_coordinates_list`, which lives in a module revision
that is not part of the sources; that already-formatted value is therefore
taken as the argument `coordsValue`. The loop over lines and tokens and
the final flush mirror the source. -/
def iterLayoutBlockTeiChildren (layoutBlock : LayoutBlock)
    (enableCoordinates : Bool) (coordsValue : String) : List TeiNode :=
  let initial : TeiPendingState :=
    { out := if enableCoordinates then [TeiNode.attrsNode [("coords", coordsValue)]] else [],
      pendingStyles := [], pendingText := [], pendingWhitespace := [] }
  let final := layoutBlock.lines.foldl
    (fun st line => line.tokens.foldl teiStep st) initial
  final.out
    ++ (if final.pendingText ≠ [] then
          [getElementForStyles final.pendingStyles final.pendingText]
        else [])

/-! Declarative style-run view, following the claim's words: consecutive
tokens with the same required-style set form one run; a run is rendered as
one element (or plain text node for the empty style set) whose text is the
in-order join of the run's token texts with the intra-run whitespace, and
the whitespace trailing a run is rendered as a separate text node. -/

/-- Prepend a token-sized run `(key, text, trailing whitespace)` onto a run
list, merging with the first run when the style keys coincide. -/
def consStyleRun (k : List String) (a w : PyStr) :
    List (List String × PyStr × PyStr) → List (List String × PyStr × PyStr)
  | [] => [(k, a, w)]
  | (k', a', w') :: rest =>
    if k' = k then (k, a ++ w ++ a', w') :: rest
    else (k, a, w) :: (k', a', w') :: rest

/-- Group tokens into maximal runs of equal required-style sets, each run
carrying its joined text (token texts separated by the intermediate
trailing whitespace) and the trailing whitespace of its last token. -/
def groupStyleRuns : List LayoutToken → List (List String × PyStr × PyStr)
  | [] => []
  | t :: ts => consStyleRun (getRequiredStyles t) t.text t.whitespace (groupStyleRuns ts)

/-- Render grouped style runs: one styled element per run, with the run's
trailing whitespace as a separate text node between runs; the final run's
trailing whitespace is dropped. -/
def emitStyleRuns : List (List String × PyStr × PyStr) → List TeiNode
  | [] => []
  | [(k, a, _)] => [getElementForStyles k a]
  | (k, a, w) :: r :: rest =>
    getElementForStyles k a
      :: ((if w ≠ [] then [TeiNode.textNode w] else []) ++ emitStyleRuns (r :: rest))

/-! ## Affiliation-address tag extraction -/

/-- The model tags appearing in the affiliation-address extraction
scenario. -/
inductive AffTag where
  | marker | institution | department | laboratory | addrLine
  | postCode | postBox | region | settlement | country | otherTag
deriving DecidableEq, Repr

/-- A semantic content entity produced by the affiliation-address
extractor: a standalone note (for the generic `O` tag) or an
affiliation-address container of tagged leaves. -/
inductive AffSemanticContent where
  | note : PyStr → AffSemanticContent
  | affiliationAddress : List (AffTag × PyStr) → AffSemanticContent
deriving DecidableEq, Repr

/-- Strip one trailing period, as applied to country names on extraction. -/
def stripTrailingDot (s : PyStr) : PyStr :=
  match s.reverse with
  | '.' :: rest => rest.reverse
  | _ => s

/-- Modelled from the spec: the tags whose repetition signals a new
instance of the aggregate (a repeated marker or a repeated primary
sub-entity such as a second institution). -/
def affIsNewInstanceTag (tag : AffTag) : Bool :=
  tag = AffTag.marker ∨ tag = AffTag.institution

/-- Modelled from the spec: one step of the affiliation-address extraction
state machine of
`sciencebeam_parser/models/affiliation_address/extract.py` (the module
itself is not part of the sources; only its test is). The generic `O` tag
is emitted as a standalone note without closing the open container; a
repeat of a new-instance tag closes the current container and opens a
fresh one; any other tag is added as a leaf to the current container,
opening one if needed; country text has a trailing period stripped. -/
def affExtractStep (st : List AffSemanticContent × Option (List (AffTag × PyStr)))
    (pair : AffTag × PyStr) :
    List AffSemanticContent × Option (List (AffTag × PyStr)) :=
  let (out, current) := st
  if pair.1 = AffTag.otherTag then
    (out ++ [AffSemanticContent.note pair.2], current)
  else
    let text := if pair.1 = AffTag.country then stripTrailingDot pair.2 else pair.2
    match current with
    | none => (out, some [(pair.1, text)])
    | some items =>
      if affIsNewInstanceTag pair.1 && items.any (fun it => it.1 = pair.1) then
        (out ++ [AffSemanticContent.affiliationAddress items], some [(pair.1, text)])
      else
        (out, some (items ++ [(pair.1, text)]))

/-- Modelled from the spec:
`AffiliationAddressSemanticExtractor.iter_semantic_content_for_entity_blocks`
— fold the state machine over the (tag, block text) pairs and flush any
still-open container at the end of input. -/
def affIterSemanticContent (pairs : List (AffTag × PyStr)) :
    List AffSemanticContent :=
  let (out, current) := pairs.foldl affExtractStep ([], none)
  out ++ (match current with
    | some items => [AffSemanticContent.affiliationAddress items]
    | none => [])

/-! ## Theorems -/

/-! ### Bounding-box merge algebra (C8, C10) -/

theorem include_of_right_empty (a e : BoundingBox) (he : e.isEmpty) :
    a.include e = a := by
  simp [BoundingBox.include, he]

theorem include_of_left_empty (e a : BoundingBox) (he : e.isEmpty)
    (ha : ¬a.isEmpty) : e.include a = a := by
  simp [BoundingBox.include, he, ha]

theorem include_of_nonempty (a b : BoundingBox) (ha : ¬a.isEmpty)
    (hb : ¬b.isEmpty) :
    a.include b =
      ⟨min a.x b.x, min a.y b.y,
        max (a.x + a.width) (b.x + b.width) - min a.x b.x,
        max (a.y + a.height) (b.y + b.height) - min a.y b.y⟩ := by
  simp [BoundingBox.include, ha, hb]

theorem boxIsEmpty_iff (b : BoundingBox) :
    b.isEmpty = true ↔ (b.width = 0 ∨ b.height = 0) := by
  simp [BoundingBox.isEmpty]

theorem include_nonempty_of_nonneg (a b : BoundingBox)
    (ha : ¬a.isEmpty) (hb : ¬b.isEmpty)
    (haw : 0 ≤ a.width) (hah : 0 ≤ a.height)
    (_hbw : 0 ≤ b.width) (_hbh : 0 ≤ b.height) :
    ¬(a.include b).isEmpty := by
  rw [include_of_nonempty a b ha hb]
  rw [boxIsEmpty_iff] at ha hb ⊢
  push_neg at ha hb ⊢
  simp only []
  constructor
  · have h1 : a.x + a.width ≤ max (a.x + a.width) (b.x + b.width) := le_max_left _ _
    have h2 : min a.x b.x ≤ a.x := min_le_left _ _
    have haw' : 0 < a.width := lt_of_le_of_ne haw (Ne.symm ha.1)
    intro h
    have : max (a.x + a.width) (b.x + b.width) = min a.x b.x := by linarith [sub_eq_zero.mp h]
    linarith
  · have h1 : a.y + a.height ≤ max (a.y + a.height) (b.y + b.height) := le_max_left _ _
    have h2 : min a.y b.y ≤ a.y := min_le_left _ _
    have hah' : 0 < a.height := lt_of_le_of_ne hah (Ne.symm ha.2)
    intro h
    have : max (a.y + a.height) (b.y + b.height) = min a.y b.y := by linarith [sub_eq_zero.mp h]
    linarith

theorem include_comm_of_nonempty (a b : BoundingBox)
    (ha : ¬a.isEmpty) (hb : ¬b.isEmpty) : a.include b = b.include a := by
  rw [include_of_nonempty a b ha hb, include_of_nonempty b a hb ha]
  simp [min_comm, max_comm]

theorem include_assoc_of_nonneg (a b c : BoundingBox)
    (haw : 0 ≤ a.width) (hah : 0 ≤ a.height)
    (hbw : 0 ≤ b.width) (hbh : 0 ≤ b.height)
    (hcw : 0 ≤ c.width) (hch : 0 ≤ c.height) :
    (a.include b).include c = a.include (b.include c) := by
  by_cases hc : c.isEmpty
  · rw [include_of_right_empty _ _ hc, include_of_right_empty _ _ hc]
  · by_cases hb : b.isEmpty
    · rw [include_of_right_empty a b hb, include_of_left_empty b c hb hc]
    · have hbc : ¬(b.include c).isEmpty :=
        include_nonempty_of_nonneg b c hb hc hbw hbh hcw hch
      by_cases ha : a.isEmpty
      · rw [include_of_left_empty a b ha hb, include_of_left_empty a _ ha hbc]
      · have hab : ¬(a.include b).isEmpty :=
          include_nonempty_of_nonneg a b ha hb haw hah hbw hbh
        rw [include_of_nonempty a b ha hb, include_of_nonempty b c hb hc] at *
        rw [include_of_nonempty _ c hab hc, include_of_nonempty a _ ha hbc]
        have hx : min a.x b.x + (max (a.x + a.width) (b.x + b.width) - min a.x b.x)
            = max (a.x + a.width) (b.x + b.width) := by ring
        have hy : min a.y b.y + (max (a.y + a.height) (b.y + b.height) - min a.y b.y)
            = max (a.y + a.height) (b.y + b.height) := by ring
        have hx' : min b.x c.x + (max (b.x + b.width) (c.x + c.width) - min b.x c.x)
            = max (b.x + b.width) (c.x + c.width) := by ring
        have hy' : min b.y c.y + (max (b.y + b.height) (c.y + c.height) - min b.y c.y)
            = max (b.y + b.height) (c.y + c.height) := by ring
        rw [BoundingBox.mk.injEq]
        refine ⟨?_, ?_, ?_, ?_⟩
        · exact min_assoc _ _ _
        · exact min_assoc _ _ _
        · rw [hx, hx', min_assoc, max_assoc]
        · rw [hy, hy', min_assoc, max_assoc]

/-- C8 (counterexample): `BoundingBox.include` as implemented is not
commutative: on two distinct empty boxes it returns its left argument, so
the two orders give different results. -/
theorem c8IncludeCounterexample :
    (BoundingBox.mk 1 2 0 0).include ⟨3, 4, 0, 0⟩ ≠
      (BoundingBox.mk 3 4 0 0).include ⟨1, 2, 0, 0⟩ := by decide

/-- C8 (amended): `BoundingBox.include` is associative on boxes with
nonnegative width and height, and commutative whenever at least one
operand is non-empty; `merge_bounding_boxes` of a singleton list returns
that box unchanged; and including an empty box with a non-empty box (in
either order) returns the non-empty box. -/
theorem c8BoundingBoxMergeAlgebra :
    (∀ a b c : BoundingBox,
      0 ≤ a.width → 0 ≤ a.height → 0 ≤ b.width → 0 ≤ b.height →
      0 ≤ c.width → 0 ≤ c.height →
      (a.include b).include c = a.include (b.include c))
    ∧ (∀ a b : BoundingBox, (¬a.isEmpty ∨ ¬b.isEmpty) →
        a.include b = b.include a)
    ∧ (∀ b : BoundingBox, mergeBoundingBoxes [b] = some b)
    ∧ (∀ a e : BoundingBox, e.isEmpty → ¬a.isEmpty →
        a.include e = a ∧ e.include a = a) := by
  refine ⟨?_, ?_, ?_, ?_⟩
  · intro a b c haw hah hbw hbh hcw hch
    exact include_assoc_of_nonneg a b c haw hah hbw hbh hcw hch
  · intro a b h
    by_cases ha : a.isEmpty
    · have hb : ¬b.isEmpty := by tauto
      rw [include_of_left_empty a b ha hb, include_of_right_empty b a ha]
    · by_cases hb : b.isEmpty
      · rw [include_of_right_empty a b hb, include_of_left_empty b a hb ha]
      · exact include_comm_of_nonempty a b ha hb
  · intro b; rfl
  · intro a e he ha
    exact ⟨include_of_right_empty a e he, include_of_left_empty e a he ha⟩

/-- C8 (witness): the amended theorem applied at concrete boxes. -/
theorem c8BoundingBoxMergeAlgebraWitness :
    ((0 : ℚ) ≤ 3 ∧ ¬(BoundingBox.mk 1 2 3 4).isEmpty)
    ∧ ((BoundingBox.mk 1 2 3 4).include ((⟨5, 6, 7, 8⟩ : BoundingBox).include
        ⟨0, 0, 2, 2⟩) =
      ((BoundingBox.mk 1 2 3 4).include ⟨5, 6, 7, 8⟩).include ⟨0, 0, 2, 2⟩)
    ∧ (BoundingBox.mk 1 2 3 4).include ⟨9, 9, 5, 5⟩ =
        (BoundingBox.mk 9 9 5 5).include ⟨1, 2, 3, 4⟩
    ∧ mergeBoundingBoxes [BoundingBox.mk 1 2 3 4] = some ⟨1, 2, 3, 4⟩
    ∧ (BoundingBox.mk 1 2 3 4).include ⟨7, 7, 0, 5⟩ = ⟨1, 2, 3, 4⟩ := by
  refine ⟨⟨by norm_num, by decide⟩, ?_, ?_, ?_, ?_⟩
  · exact (c8BoundingBoxMergeAlgebra.1 ⟨1, 2, 3, 4⟩ ⟨5, 6, 7, 8⟩ ⟨0, 0, 2, 2⟩
      (by norm_num) (by norm_num) (by norm_num) (by norm_num)
      (by norm_num) (by norm_num)).symm
  · exact c8BoundingBoxMergeAlgebra.2.1 ⟨1, 2, 3, 4⟩ ⟨9, 9, 5, 5⟩
      (Or.inl (by decide))
  · exact c8BoundingBoxMergeAlgebra.2.2.1 ⟨1, 2, 3, 4⟩
  · exact (c8BoundingBoxMergeAlgebra.2.2.2 ⟨1, 2, 3, 4⟩ ⟨7, 7, 0, 5⟩
      (by decide) (by decide)).1

/-- C10: `merge_bounding_boxes` requires a non-empty iterable — on the
empty list the underlying `reduce` raises (modelled as `none`) rather than
returning the empty bounding box; on a non-empty list it returns the left
fold of `BoundingBox.include` over the boxes in order. -/
theorem c10MergeBoundingBoxesReduce :
    mergeBoundingBoxes [] = none
    ∧ mergeBoundingBoxes [] ≠ some emptyBoundingBox
    ∧ ∀ (b : BoundingBox) (bs : List BoundingBox),
        mergeBoundingBoxes (b :: bs) = some (bs.foldl BoundingBox.include b) :=
  ⟨rfl, by decide, fun _ _ => rfl⟩

/-! ### Segmentation feature row arity (C3) -/

/-- C3: every feature row built by the segmentation data generator has
exactly 34 feature columns, so the length-mismatch error branch is
unreachable: the generator always yields the joined data line and never
raises, truncates or pads. -/
theorem c3SegmentationFeatureCount (f : SegmentationLineFeatures) :
    (segmentationLineFeaturesList f).length = 34
    ∧ segmentationModelDataRow f =
        Except.ok (String.intercalate " " (segmentationLineFeaturesList f))
    ∧ ∀ msg, segmentationModelDataRow f ≠ Except.error msg := by
  refine ⟨rfl, rfl, ?_⟩
  intro msg h
  simp only [segmentationModelDataRow] at h
  exact absurd h (by simp [segmentationLineFeaturesList])

/-! ### Capitalisation feature (C5) -/

/-- C5 (counterexample): the claim requires at least one letter for ALLCAP
(otherwise NOCAPS), but the code returns ALLCAP for `"!!"`, which contains
no letter at all (and is not all-digits, and does not start uppercase). -/
theorem c5CapitalisationCounterexample :
    getCapitalisationStatus ['!', '!'] = "ALLCAP"
    ∧ (['!', '!'] : PyStr).all (fun c => !c.isAlpha) = true
    ∧ pyIsUpper '!' = false
    ∧ pyStrIsDigit ['!', '!'] = false := by decide

/-- C5 (amended): capitalisation status is NOCAPS for purely-digit text;
for non-all-digit text it is ALLCAP when the text is non-empty and
contains no lowercase letter (no letter needs to exist), INITCAP when the
first character is uppercase (and some lowercase character exists), and
NOCAPS otherwise; e.g. ABC gives ALLCAP, Abc gives INITCAP, abc gives
NOCAPS and 123 gives NOCAPS. -/
theorem c5CapitalisationAmended (text : PyStr) :
    (pyStrIsDigit text = true → getCapitalisationStatus text = "NOCAPS")
    ∧ (text ≠ [] → pyStrIsDigit text = false →
        (∀ c ∈ text, pyIsLower c = false) →
        getCapitalisationStatus text = "ALLCAP")
    ∧ (∀ c rest, text = c :: rest → pyStrIsDigit text = false →
        (∃ c' ∈ text, pyIsLower c' = true) → pyIsUpper c = true →
        getCapitalisationStatus text = "INITCAP")
    ∧ (∀ c rest, text = c :: rest → pyStrIsDigit text = false →
        (∃ c' ∈ text, pyIsLower c' = true) → pyIsUpper c = false →
        getCapitalisationStatus text = "NOCAPS") := by
  refine ⟨?_, ?_, ?_, ?_⟩
  · intro h
    simp [getCapitalisationStatus, getDigitFeature, h]
  · intro hne hnd hall
    have hd : getDigitFeature text ≠ "ALLDIGIT" := by
      simp [getDigitFeature, hnd]
      split <;> simp
    simp only [getCapitalisationStatus, if_neg hd]
    have hcond : (!text.isEmpty && text.all fun c => !pyIsLower c) = true := by
      simp [List.isEmpty_iff, hne, List.all_eq_true]
      intro c hc
      simp [hall c hc]
    simp [getCapitalisationFeature, hcond]
  · rintro c rest rfl hnd ⟨c', hc', hlow⟩ hup
    have hd : getDigitFeature (c :: rest) ≠ "ALLDIGIT" := by
      simp [getDigitFeature, hnd]
      split <;> simp
    simp only [getCapitalisationStatus, if_neg hd]
    have hcond : ((c :: rest : PyStr).all fun x => !pyIsLower x) = false := by
      rw [Bool.eq_false_iff]
      intro hall
      have := List.all_eq_true.mp hall c' hc'
      simp [hlow] at this
    simp [getCapitalisationFeature, hcond, hup]
  · rintro c rest rfl hnd ⟨c', hc', hlow⟩ hup
    have hd : getDigitFeature (c :: rest) ≠ "ALLDIGIT" := by
      simp [getDigitFeature, hnd]
      split <;> simp
    simp only [getCapitalisationStatus, if_neg hd]
    have hcond : ((c :: rest : PyStr).all fun x => !pyIsLower x) = false := by
      rw [Bool.eq_false_iff]
      intro hall
      have := List.all_eq_true.mp hall c' hc'
      simp [hlow] at this
    simp [getCapitalisationFeature, hcond, hup]

/-- C5 (witness): the amended theorem applied at `"Abc"` (INITCAP) and at
`"123"` (NOCAPS for purely-digit text). -/
theorem c5CapitalisationWitness :
    (pyStrIsDigit ['1', '2', '3'] = true
      ∧ getCapitalisationStatus ['1', '2', '3'] = "NOCAPS")
    ∧ (pyStrIsDigit ['A', 'b', 'c'] = false
      ∧ pyIsUpper 'A' = true
      ∧ getCapitalisationStatus ['A', 'b', 'c'] = "INITCAP") :=
  ⟨⟨by decide, (c5CapitalisationAmended ['1', '2', '3']).1 (by decide)⟩,
    ⟨by decide, by decide,
      (c5CapitalisationAmended ['A', 'b', 'c']).2.2.1 'A' ['b', 'c'] rfl
        (by decide) ⟨'b', by decide, by decide⟩ (by decide)⟩⟩

/-! ### Line and block boundary status (C6) -/

/-- C6: within a line, the token at index 0 is LINESTART (when the line has
more than one token), the token at index count-1 is LINEEND, all other
tokens are LINEIN, and for a one-token line LINEEND wins; block status is
BLOCKEND exactly when the line is the block's last line and the line
status is LINEEND, BLOCKSTART exactly when the line is the block's first
line and the line status is LINESTART, and BLOCKIN otherwise. -/
theorem c6LineBlockBoundaryStatus :
    (∀ tokenCount, 1 < tokenCount → getLineStatus 0 tokenCount = "LINESTART")
    ∧ (∀ tokenCount, 0 < tokenCount →
        getLineStatus (tokenCount - 1) tokenCount = "LINEEND")
    ∧ (∀ tokenIndex tokenCount, 0 < tokenIndex → tokenIndex < tokenCount - 1 →
        getLineStatus tokenIndex tokenCount = "LINEIN")
    ∧ getLineStatus 0 1 = "LINEEND"
    ∧ (∀ lineIndex lineCount lineStatus, lineIndex < lineCount →
        (getBlockStatus lineIndex lineCount lineStatus = "BLOCKEND"
          ↔ (lineIndex = lineCount - 1 ∧ lineStatus = "LINEEND")))
    ∧ (∀ lineIndex lineCount lineStatus, lineIndex < lineCount →
        (getBlockStatus lineIndex lineCount lineStatus = "BLOCKSTART"
          ↔ (lineIndex = 0 ∧ lineStatus = "LINESTART")))
    ∧ (∀ lineIndex lineCount lineStatus, lineIndex < lineCount →
        (getBlockStatus lineIndex lineCount lineStatus = "BLOCKIN"
          ↔ (¬(lineIndex = lineCount - 1 ∧ lineStatus = "LINEEND")
              ∧ ¬(lineIndex = 0 ∧ lineStatus = "LINESTART")))) := by
  refine ⟨?_, ?_, ?_, rfl, ?_, ?_, ?_⟩
  · intro n h
    have h1 : (0 : ℕ) ≠ n - 1 := by omega
    simp [getLineStatus, h1]
  · intro n _
    simp [getLineStatus]
  · intro i n h1 h2
    have hne : i ≠ n - 1 := by omega
    have hz : i ≠ 0 := by omega
    simp [getLineStatus, hne, hz]
  · intro li lc ls _
    constructor
    · intro h
      by_cases h1 : li = lc - 1 ∧ ls = "LINEEND"
      · exact h1
      · exfalso
        have h1' : (li = lc - 1 && ls = "LINEEND") = false := by
          rw [Bool.eq_false_iff]
          intro hb
          simp at hb
          exact h1 ⟨hb.1, hb.2⟩
        simp [getBlockStatus, h1'] at h
        split at h <;> simp_all
    · rintro ⟨h1, h2⟩
      simp [getBlockStatus, h1, h2]
  · intro li lc ls hlt
    constructor
    · intro h
      by_cases h1 : li = 0 ∧ ls = "LINESTART"
      · exact h1
      · exfalso
        simp only [getBlockStatus] at h
        split at h
        · simp_all
        · split at h <;> simp_all
    · rintro ⟨h1, h2⟩
      have hne : (li = lc - 1 && ls = "LINEEND") = false := by
        subst h1 h2
        simp
      simp [getBlockStatus, hne, h1, h2]
  · intro li lc ls hlt
    constructor
    · intro h
      constructor
      · rintro ⟨h1, h2⟩
        simp [getBlockStatus, h1, h2] at h
      · rintro ⟨h1, h2⟩
        have hne : (li = lc - 1 && ls = "LINEEND") = false := by
          subst h1 h2; simp
        simp [getBlockStatus, hne, h1, h2] at h
    · rintro ⟨h1, h2⟩
      have b1 : (li = lc - 1 && ls = "LINEEND") = false := by
        rw [Bool.eq_false_iff]
        intro hb; simp at hb; exact h1 ⟨hb.1, hb.2⟩
      have b2 : (li = 0 && ls = "LINESTART") = false := by
        rw [Bool.eq_false_iff]
        intro hb; simp at hb; exact h2 ⟨hb.1, hb.2⟩
      simp [getBlockStatus, b1, b2]

/-- C6 (witness): the theorem applied at a three-token line and a two-line
block. -/
theorem c6LineBlockBoundaryStatusWitness :
    ((1 : ℕ) < 3 ∧ getLineStatus 0 3 = "LINESTART")
    ∧ ((0 : ℕ) < 3 ∧ getLineStatus 2 3 = "LINEEND")
    ∧ getLineStatus 0 1 = "LINEEND"
    ∧ ((1 : ℕ) < 2
        ∧ (getBlockStatus 1 2 "LINEEND" = "BLOCKEND" ↔ (1 = 2 - 1 ∧ "LINEEND" = "LINEEND"))) :=
  ⟨⟨by decide, c6LineBlockBoundaryStatus.1 3 (by decide)⟩,
    ⟨by decide, c6LineBlockBoundaryStatus.2.1 3 (by decide)⟩,
    c6LineBlockBoundaryStatus.2.2.2.1,
    ⟨by decide, c6LineBlockBoundaryStatus.2.2.2.2.1 1 2 "LINEEND" (by decide)⟩⟩

/-! ### Structure preservation of flat_map_layout_tokens (C7) -/

theorem forall2_map_self {α β : Type} (R : α → β → Prop) (f : α → β)
    (l : List α) (h : ∀ x ∈ l, R x (f x)) : List.Forall₂ R l (l.map f) := by
  induction l with
  | nil => simp
  | cons a as ih =>
    exact List.Forall₂.cons (h a (by simp))
      (ih (fun x hx => h x (List.mem_cons_of_mem a hx)))

/-- C7: `flat_map_layout_tokens` preserves the page/block/line nesting —
the result has the same number of pages, the same number of blocks per
page and the same number of lines per block, and each resulting line's
token list is the in-order concatenation of `fn` applied to that line's
original tokens. -/
theorem c7FlatMapStructurePreservation (fn : LayoutToken → List LayoutToken)
    (d : LayoutDocument) :
    (d.flatMapLayoutTokens fn).pages.length = d.pages.length
    ∧ List.Forall₂ (fun (p : LayoutPage) (p' : LayoutPage) =>
        p'.blocks.length = p.blocks.length
        ∧ List.Forall₂ (fun (b : LayoutBlock) (b' : LayoutBlock) =>
            b'.lines.length = b.lines.length
            ∧ List.Forall₂ (fun (l : LayoutLine) (l' : LayoutLine) =>
                l'.tokens = (l.tokens.map fn).flatten) b.lines b'.lines)
          p.blocks p'.blocks)
        d.pages (d.flatMapLayoutTokens fn).pages := by
  constructor
  · simp [LayoutDocument.flatMapLayoutTokens]
  · apply forall2_map_self
    intro p _
    constructor
    · simp [LayoutPage.flatMapLayoutTokens]
    · apply forall2_map_self
      intro b _
      constructor
      · simp [LayoutBlock.flatMapLayoutTokens]
      · apply forall2_map_self
        intro l _
        simp [LayoutLine.flatMapLayoutTokens]

/-! ### Affiliation tag-extraction splitting (C9) -/

/-- C9: on the input sequence marker "1", institution "Institution 1",
institution "Institution 2", the affiliation-address semantic extractor
(modelled from the spec) emits exactly two affiliation entities: the first
containing the marker and the first institution, the second starting at
and containing the second institution. -/
theorem c9AffiliationSplitScenario :
    affIterSemanticContent
      [(AffTag.marker, "1".toList),
        (AffTag.institution, "Institution 1".toList),
        (AffTag.institution, "Institution 2".toList)] =
      [AffSemanticContent.affiliationAddress
          [(AffTag.marker, "1".toList), (AffTag.institution, "Institution 1".toList)],
        AffSemanticContent.affiliationAddress
          [(AffTag.institution, "Institution 2".toList)]]
    ∧ (affIterSemanticContent
        [(AffTag.marker, "1".toList),
          (AffTag.institution, "Institution 1".toList),
          (AffTag.institution, "Institution 2".toList)]).length = 2 := by
  constructor
  · rfl
  · rfl

/-! ### Retokenization coordinate partition (C2) -/

/-- C2 (failing input evaluation): retokenizing the token "ab cde" (width 6,
default split at the space) gives the first sub-token "ab" a width of
6 * 3 / 6 = 3 — the width share of the *last* sub-token "cde", because the
source's final list comprehension passes the loop variable
`pending_token_text` instead of the item's own text to
`get_relative_coordinates` — whereas the claimed proportional width for
"ab" is 6 * 2 / 6 = 2. The x offsets, y, height and font are as claimed. -/
theorem c2RetokenizeCoordinateBugEval :
    retokenizeLayoutToken (fun _ => [['a', 'b'], [' '], ['c', 'd', 'e']])
        { text := ['a', 'b', ' ', 'c', 'd', 'e'], whitespace := [' '],
          coordinates := some ⟨0, 0, 6, 1⟩ } =
      [{ text := ['a', 'b'], font := emptyFont, whitespace := [' '],
          coordinates := some ⟨0, 0, 3, 1⟩ },
        { text := ['c', 'd', 'e'], font := emptyFont, whitespace := [' '],
          coordinates := some ⟨3, 0, 3, 1⟩ }]
    ∧ (6 : ℚ) * (([ 'a', 'b' ] : PyStr).length : ℚ) / ((6 : ℕ) : ℚ) ≠ 3 := by
  constructor
  · simp +decide only [retokenizeLayoutToken, retokenizeStep, isWhitespaceOnly,
      pyIsSpaceChar, getRelativeCoordinates, List.foldl, List.all, List.map,
      List.length, List.append, reduceIte]
    norm_num
  · norm_num

/-! ### Retokenization round-trip (C1) -/

theorem concatAll_append (xs ys : List PyStr) :
    concatAll (xs ++ ys) = concatAll xs ++ concatAll ys := by
  induction xs with
  | nil => simp [concatAll]
  | cons a as ih => simp [concatAll, List.foldr_cons] at *; simp [ih]

theorem isWhitespaceOnly_concatAll (ss : List PyStr)
    (h : ∀ s ∈ ss, isWhitespaceOnly s = true) :
    isWhitespaceOnly (concatAll ss) = true := by
  induction ss with
  | nil => rfl
  | cons a as ih =>
    have ha := h a (by simp)
    have hrest := ih (fun s hs => h s (List.mem_cons_of_mem a hs))
    simp [concatAll] at *
    simp [isWhitespaceOnly, List.all_append] at *
    exact ⟨ha, hrest⟩

theorem dropWhile_head_false {α : Type} (p : α → Bool) (l : List α)
    (x : α) (xs : List α) (h : l.dropWhile p = x :: xs) : p x = false := by
  induction l with
  | nil => simp [List.dropWhile] at h
  | cons a as ih =>
    rw [List.dropWhile] at h
    by_cases hp : p a = true
    · rw [hp] at h; simp at h; exact ih h
    · rw [Bool.eq_false_iff.mpr hp] at h
      simp at h
      rw [← h.1]
      exact Bool.eq_false_iff.mpr hp

theorem nonempty_of_not_whitespaceOnly (s : PyStr)
    (h : isWhitespaceOnly s = false) : s ≠ [] := by
  intro he; subst he; simp [isWhitespaceOnly] at h

/-- The running join of a retokenization state: the emitted
(text, whitespace) pairs followed by the pending token text and pending
whitespace. -/
def retokenizeEmitJoin (st : RetokenizeState) : PyStr :=
  concatAll (st.acc.map (fun p => p.1 ++ p.2.1)) ++ st.pendingTokenText
    ++ st.pendingWhitespace

theorem retokenizeFoldl_pending_ne (ts : List PyStr) (st : RetokenizeState)
    (h : st.pendingTokenText ≠ []) :
    (ts.foldl retokenizeStep st).pendingTokenText ≠ [] := by
  induction ts generalizing st with
  | nil => exact h
  | cons s ss ih =>
    rw [List.foldl_cons]
    by_cases hws : isWhitespaceOnly s = true
    · exact ih _ (by simp [retokenizeStep, hws]; exact h)
    · refine ih _ ?_
      have hs : s ≠ [] :=
        nonempty_of_not_whitespaceOnly s (Bool.eq_false_iff.mpr hws)
      simp [retokenizeStep, hws]
      exact hs

theorem retokenizeEmitJoin_step_ws (st : RetokenizeState) (s : PyStr)
    (hws : isWhitespaceOnly s = true) :
    retokenizeEmitJoin (retokenizeStep st s) = retokenizeEmitJoin st ++ s := by
  simp [retokenizeStep, hws, retokenizeEmitJoin, List.append_assoc]

theorem retokenizeEmitJoin_step_nonws (st : RetokenizeState) (s : PyStr)
    (hws : ¬isWhitespaceOnly s = true) (h : st.pendingTokenText ≠ []) :
    retokenizeEmitJoin (retokenizeStep st s) = retokenizeEmitJoin st ++ s := by
  simp only [retokenizeStep, if_neg hws, retokenizeEmitJoin, ne_eq, h,
    not_false_eq_true, if_true, ite_true]
  rw [List.map_append, concatAll_append]
  simp [concatAll, List.append_assoc]

theorem retokenizeFoldl_emitJoin (ts : List PyStr) (st : RetokenizeState)
    (h : st.pendingTokenText ≠ []) :
    retokenizeEmitJoin (ts.foldl retokenizeStep st)
      = retokenizeEmitJoin st ++ concatAll ts := by
  induction ts generalizing st with
  | nil => simp [concatAll]
  | cons s ss ih =>
    rw [List.foldl_cons]
    by_cases hws : isWhitespaceOnly s = true
    · have hpend : (retokenizeStep st s).pendingTokenText ≠ [] := by
        simp [retokenizeStep, hws]; exact h
      rw [ih _ hpend, retokenizeEmitJoin_step_ws st s hws]
      simp [concatAll, List.append_assoc]
    · have hs : s ≠ [] :=
        nonempty_of_not_whitespaceOnly s (Bool.eq_false_iff.mpr hws)
      have hpend : (retokenizeStep st s).pendingTokenText ≠ [] := by
        simp [retokenizeStep, hws]; exact hs
      rw [ih _ hpend, retokenizeEmitJoin_step_nonws st s hws h]
      simp [concatAll, List.append_assoc]

theorem retokenizeFoldl_empty_strings (ls : List PyStr)
    (h : ∀ s ∈ ls, s = ([] : PyStr)) :
    ls.foldl retokenizeStep ⟨[], [], [], 0, 0⟩ = ⟨[], [], [], 0, 0⟩ := by
  induction ls with
  | nil => rfl
  | cons a as ih =>
    have ha : a = ([] : PyStr) := h a (by simp)
    subst ha
    rw [List.foldl_cons]
    have hstep : retokenizeStep ⟨[], [], [], 0, 0⟩ ([] : PyStr)
        = ⟨[], [], [], 0, 0⟩ := rfl
    rw [hstep]
    exact ih (fun s hs => h s (List.mem_cons_of_mem _ hs))

theorem concatAll_all_empty (ls : List PyStr)
    (h : ∀ s ∈ ls, s = ([] : PyStr)) : concatAll ls = [] := by
  induction ls with
  | nil => rfl
  | cons a as ih =>
    have ha : a = ([] : PyStr) := h a (by simp)
    subst ha
    simp only [concatAll, List.foldr_cons, List.nil_append]
    exact ih (fun s hs => h s (List.mem_cons_of_mem _ hs))

theorem concatAll_singleton (s : PyStr) : concatAll [s] = s := by
  simp [concatAll]

theorem mem_takeWhile_pred {α : Type} (p : α → Bool) (l : List α) (x : α)
    (h : x ∈ l.takeWhile p) : p x = true := by
  induction l with
  | nil => simp [List.takeWhile] at h
  | cons a as ih =>
    rw [List.takeWhile] at h
    by_cases hp : p a = true
    · rw [hp] at h
      simp at h
      rcases h with h | h
      · rw [h]; exact hp
      · exact ih h
    · rw [Bool.eq_false_iff.mpr hp] at h
      simp at h

/-- C1 (counterexample): the round-trip claim fails when a whitespace-only
tokenizer output precedes the first non-whitespace output: for the token
" a" (whitespace " ") and the concatenation-preserving tokenizer output
[" ", "a"], the leading space is dropped and the join is "a " instead of
" a ". -/
theorem c1RetokenizeRoundTripCounterexample :
    concatAll ((fun _ => [[' '], ['a']]) ([' ', 'a'] : PyStr)) = [' ', 'a']
    ∧ isWhitespaceOnly ([' ', 'a'] : PyStr) = false
    ∧ joinTokensWithTrailingWhitespace
        (retokenizeLayoutToken (fun _ => [[' '], ['a']])
          { text := [' ', 'a'], whitespace := [' '] })
      ≠ ([' ', 'a'] : PyStr) ++ [' '] := by
  refine ⟨by decide, by decide, ?_⟩
  intro h
  simp +decide only [retokenizeLayoutToken, retokenizeStep, isWhitespaceOnly,
    pyIsSpaceChar, getRelativeCoordinates, List.foldl, List.all, List.map,
    List.append, reduceIte, joinTokensWithTrailingWhitespace, concatAll,
    List.foldr] at h

/-- C1 (amended): for every layout token whose text is not purely
whitespace and every tokenizer whose outputs concatenate back to the input
text, joining the retokenized tokens (each text followed by its trailing
whitespace, the last one's included) equals the original text concatenated
with the original trailing whitespace — provided additionally that no
non-empty whitespace-only tokenizer output precedes the first
non-whitespace output (otherwise that leading whitespace is dropped from
the join, as the counterexample shows). -/
theorem c1RetokenizeRoundTripAmended (t : LayoutToken)
    (fn : PyStr → List PyStr)
    (hws : isWhitespaceOnly t.text = false)
    (hconcat : concatAll (fn t.text) = t.text)
    (hlead : ∀ s ∈ (fn t.text).takeWhile isWhitespaceOnly, s = ([] : PyStr)) :
    joinTokensWithTrailingWhitespace (retokenizeLayoutToken fn t)
      = t.text ++ t.whitespace := by
  by_cases heq : fn t.text = [t.text]
  · simp only [retokenizeLayoutToken]
    rw [if_neg (by simp [hws]), if_pos heq]
    simp [joinTokensWithTrailingWhitespace, concatAll]
  · obtain ⟨w, rest, hdrop⟩ :
        ∃ w rest, (fn t.text).dropWhile isWhitespaceOnly = w :: rest := by
      cases hd : (fn t.text).dropWhile isWhitespaceOnly with
      | nil =>
        exfalso
        have hall : ∀ s ∈ fn t.text, isWhitespaceOnly s = true := by
          intro s hsmem
          have hid : (fn t.text).takeWhile isWhitespaceOnly = fn t.text := by
            have := List.takeWhile_append_dropWhile
              (p := isWhitespaceOnly) (l := fn t.text)
            rw [hd] at this
            simpa using this
          rw [← hid] at hsmem
          exact mem_takeWhile_pred isWhitespaceOnly _ s hsmem
        have hwsc := isWhitespaceOnly_concatAll _ hall
        rw [hconcat, hws] at hwsc
        exact Bool.false_ne_true hwsc
      | cons w rest => exact ⟨w, rest, rfl⟩
    have hwsw : isWhitespaceOnly w = false :=
      dropWhile_head_false _ (fn t.text) w rest hdrop
    have hwne : w ≠ [] := nonempty_of_not_whitespaceOnly w hwsw
    have hstep : retokenizeStep ⟨[], [], [], 0, 0⟩ w
        = ⟨[], w, [], w.length, 0⟩ := by
      simp [retokenizeStep, hwsw]
    have hfold : (fn t.text).foldl retokenizeStep ⟨[], [], [], 0, 0⟩
        = rest.foldl retokenizeStep ⟨[], w, [], w.length, 0⟩ := by
      conv_lhs =>
        rw [← List.takeWhile_append_dropWhile
          (p := isWhitespaceOnly) (l := fn t.text)]
      rw [List.foldl_append, retokenizeFoldl_empty_strings _ hlead, hdrop,
        List.foldl_cons, hstep]
    have hpend : (rest.foldl retokenizeStep
        ⟨[], w, [], w.length, 0⟩).pendingTokenText ≠ [] :=
      retokenizeFoldl_pending_ne rest _ hwne
    have hjoin : retokenizeEmitJoin
        (rest.foldl retokenizeStep ⟨[], w, [], w.length, 0⟩)
        = w ++ concatAll rest := by
      rw [retokenizeFoldl_emitJoin rest _ hwne]
      simp [retokenizeEmitJoin, concatAll]
    have htake : concatAll ((fn t.text).takeWhile isWhitespaceOnly) = [] :=
      concatAll_all_empty _ hlead
    have hts2 : (fn t.text).takeWhile isWhitespaceOnly ++ (w :: rest)
        = fn t.text := by
      rw [← hdrop]
      exact List.takeWhile_append_dropWhile _ _
    have hconcat2 : w ++ concatAll rest = t.text := by
      calc w ++ concatAll rest = concatAll (w :: rest) := by
            simp [concatAll]
        _ = concatAll ((fn t.text).takeWhile isWhitespaceOnly)
              ++ concatAll (w :: rest) := by rw [htake]; simp
        _ = concatAll ((fn t.text).takeWhile isWhitespaceOnly
              ++ (w :: rest)) := (concatAll_append _ _).symm
        _ = concatAll (fn t.text) := by rw [hts2]
        _ = t.text := hconcat
    have hemit : concatAll (List.map (fun p => p.1 ++ p.2.1)
          (rest.foldl retokenizeStep ⟨[], w, [], w.length, 0⟩).acc)
        ++ (rest.foldl retokenizeStep
            ⟨[], w, [], w.length, 0⟩).pendingTokenText
        ++ (rest.foldl retokenizeStep
            ⟨[], w, [], w.length, 0⟩).pendingWhitespace = t.text := by
      have h := hjoin.trans hconcat2
      simpa [retokenizeEmitJoin] using h
    simp only [retokenizeLayoutToken]
    rw [if_neg (by simp [hws]), if_neg heq, hfold, if_pos hpend]
    simp only [joinTokensWithTrailingWhitespace, List.map_map,
      List.map_append, List.map_cons, List.map_nil, concatAll_append,
      concatAll_singleton, Function.comp]
    simp only [Function.comp_def]
    rw [← List.append_assoc, ← List.append_assoc, hemit]

/-- C1 (witness): the amended round-trip theorem applied to the token
"a b" with the whitespace-keeping split ["a", " ", "b"]. -/
theorem c1RetokenizeRoundTripWitness :
    (isWhitespaceOnly (['a', ' ', 'b'] : PyStr) = false
      ∧ concatAll [['a'], [' '], ['b']] = (['a', ' ', 'b'] : PyStr)
      ∧ ∀ s ∈ ([['a'], [' '], ['b']] : List PyStr).takeWhile isWhitespaceOnly,
          s = ([] : PyStr))
    ∧ joinTokensWithTrailingWhitespace
        (retokenizeLayoutToken (fun _ => [['a'], [' '], ['b']])
          { text := ['a', ' ', 'b'], whitespace := [' '] })
      = (['a', ' ', 'b'] : PyStr) ++ [' '] :=
  ⟨⟨by decide, by decide, by decide⟩,
    c1RetokenizeRoundTripAmended
      { text := ['a', ' ', 'b'], whitespace := [' '] }
      (fun _ => [['a'], [' '], ['b']]) (by decide) (by decide) (by decide)⟩

/-! ### TEI style-run merging (C4) -/

/-- Flattened token sequence of a block, in line order. -/
def blockFlatTokens (b : LayoutBlock) : List LayoutToken :=
  (b.lines.map LayoutLine.tokens).flatten

/-- Final flush of `iter_layout_block_tei_children`. -/
def teiFinalize (st : TeiPendingState) : List TeiNode :=
  st.out ++ (if st.pendingText ≠ [] then
    [getElementForStyles st.pendingStyles st.pendingText] else [])

/-- Token-by-token unrolling of the pending-run state machine, starting in
the middle of a run with style set `k`, accumulated text `a` and pending
whitespace `w`. -/
def teiSpecAux (k : List String) (a w : PyStr) :
    List LayoutToken → List TeiNode
  | [] => if a ≠ [] then [getElementForStyles k a] else []
  | tok :: ts =>
    if getRequiredStyles tok = k then
      teiSpecAux k ((if w ≠ [] then a ++ w else a) ++ tok.text)
        tok.whitespace ts
    else
      (if a ≠ [] then [getElementForStyles k a] else [])
        ++ (if w ≠ [] then [TeiNode.textNode w] else [])
        ++ teiSpecAux (getRequiredStyles tok) tok.text tok.whitespace ts

theorem teiFoldlLines_eq_flatten (lines : List LayoutLine)
    (st : TeiPendingState) :
    lines.foldl (fun s l => l.tokens.foldl teiStep s) st
      = ((lines.map LayoutLine.tokens).flatten).foldl teiStep st := by
  induction lines generalizing st with
  | nil => rfl
  | cons l ls ih =>
    rw [List.foldl_cons, List.map_cons, List.flatten_cons, List.foldl_append]
    exact ih _

theorem teiFoldl_specAux (ts : List LayoutToken) (st : TeiPendingState) :
    teiFinalize (ts.foldl teiStep st)
      = st.out ++ teiSpecAux st.pendingStyles st.pendingText
          st.pendingWhitespace ts := by
  induction ts generalizing st with
  | nil => rfl
  | cons tok ts ih =>
    rw [List.foldl_cons]
    by_cases hk : getRequiredStyles tok = st.pendingStyles
    · have hstep : teiStep st tok =
          { st with
            pendingText := (if st.pendingWhitespace ≠ [] then
                st.pendingText ++ st.pendingWhitespace
              else st.pendingText) ++ tok.text,
            pendingWhitespace := tok.whitespace } := by
        simp [teiStep, hk]
      rw [hstep, ih]
      simp only [teiSpecAux]
      rw [if_pos hk]
    · have hstep : teiStep st tok =
          { out := st.out
              ++ (if st.pendingText ≠ [] then
                    [getElementForStyles st.pendingStyles st.pendingText]
                  else [])
              ++ (if st.pendingWhitespace ≠ [] then
                    [TeiNode.textNode st.pendingWhitespace]
                  else []),
            pendingStyles := getRequiredStyles tok,
            pendingText := tok.text,
            pendingWhitespace := tok.whitespace } := by
        simp [teiStep, hk]
      rw [hstep, ih]
      simp only [teiSpecAux]
      rw [if_neg hk]
      simp [List.append_assoc]

theorem consStyleRun_merge (k : List String) (a w b w' : PyStr)
    (R : List (List String × PyStr × PyStr)) :
    consStyleRun k a w (consStyleRun k b w' R)
      = consStyleRun k (a ++ w ++ b) w' R := by
  cases R with
  | nil => simp [consStyleRun]
  | cons r rest =>
    obtain ⟨k2, a2, w2⟩ := r
    by_cases hk2 : k2 = k
    · subst hk2
      simp [consStyleRun, List.append_assoc]
    · simp [consStyleRun, hk2]

theorem consStyleRun_cons (k : List String) (a w : PyStr)
    (R : List (List String × PyStr × PyStr)) :
    ∃ a' w' rest, consStyleRun k a w R = (k, a', w') :: rest := by
  cases R with
  | nil => exact ⟨a, w, [], rfl⟩
  | cons r rest =>
    obtain ⟨k2, a2, w2⟩ := r
    by_cases hk2 : k2 = k
    · subst hk2
      exact ⟨a ++ w ++ a2, w2, rest, by simp [consStyleRun]⟩
    · exact ⟨a, w, (k2, a2, w2) :: rest, by simp [consStyleRun, hk2]⟩

theorem teiSpecAux_emitStyleRuns (ts : List LayoutToken) (k : List String)
    (a w : PyStr) (ha : a ≠ [])
    (h : ∀ tok ∈ ts, tok.text ≠ []) :
    teiSpecAux k a w ts = emitStyleRuns (consStyleRun k a w (groupStyleRuns ts)) := by
  induction ts generalizing k a w with
  | nil => simp [teiSpecAux, ha, groupStyleRuns, consStyleRun, emitStyleRuns]
  | cons tok ts ih =>
    have hrest : ∀ t ∈ ts, t.text ≠ [] :=
      fun t ht => h t (List.mem_cons_of_mem _ ht)
    have hiw : (if w ≠ [] then a ++ w else a) = a ++ w := by
      by_cases hw : w = []
      · simp [hw]
      · simp [hw]
    by_cases hk : getRequiredStyles tok = k
    · have ha' : (if w ≠ [] then a ++ w else a) ++ tok.text ≠ [] := by
        rw [hiw]
        simp [ha]
      rw [teiSpecAux, if_pos hk, ih _ _ _ ha' hrest]
      rw [groupStyleRuns, hk, hiw, consStyleRun_merge]
    · have htok : tok.text ≠ [] := h tok (by simp)
      rw [teiSpecAux, if_neg hk, ih _ _ _ htok hrest]
      rw [groupStyleRuns]
      obtain ⟨a', w', rest, hcons⟩ :=
        consStyleRun_cons (getRequiredStyles tok) tok.text tok.whitespace
          (groupStyleRuns ts)
      rw [hcons]
      have houter : consStyleRun k a w ((getRequiredStyles tok, a', w') :: rest)
          = (k, a, w) :: (getRequiredStyles tok, a', w') :: rest := by
        simp [consStyleRun, hk]
      rw [houter, emitStyleRuns]
      simp [ha]

theorem teiSpecAux_start (ts : List LayoutToken)
    (h : ∀ tok ∈ ts, tok.text ≠ []) :
    teiSpecAux [] [] [] ts = emitStyleRuns (groupStyleRuns ts) := by
  cases ts with
  | nil => simp [teiSpecAux, groupStyleRuns, emitStyleRuns]
  | cons tok ts =>
    have htok : tok.text ≠ [] := h tok (by simp)
    have hrest : ∀ t ∈ ts, t.text ≠ [] :=
      fun t ht => h t (List.mem_cons_of_mem _ ht)
    by_cases hk : getRequiredStyles tok = []
    · rw [teiSpecAux, if_pos hk]
      have hred : (if ([] : PyStr) ≠ [] then ([] : PyStr) ++ [] else [])
          ++ tok.text = tok.text := by simp
      rw [hred, teiSpecAux_emitStyleRuns ts _ _ _ htok hrest]
      rw [groupStyleRuns, hk]
    · rw [teiSpecAux, if_neg hk]
      rw [teiSpecAux_emitStyleRuns ts _ _ _ htok hrest, groupStyleRuns]
      simp

theorem consStyleRun_chain (ts : List LayoutToken) :
    ∀ k a w, List.Chain' (fun p q : List String × PyStr × PyStr => p.1 ≠ q.1)
      (consStyleRun k a w (groupStyleRuns ts)) := by
  induction ts with
  | nil =>
    intro k a w
    simp [groupStyleRuns, consStyleRun]
  | cons tok ts ih =>
    intro k a w
    rw [groupStyleRuns]
    obtain ⟨a', w', rest, hcons⟩ :=
      consStyleRun_cons (getRequiredStyles tok) tok.text tok.whitespace
        (groupStyleRuns ts)
    have hchain := ih (getRequiredStyles tok) tok.text tok.whitespace
    rw [hcons] at hchain ⊢
    by_cases hk : getRequiredStyles tok = k
    · subst hk
      have hmerge : consStyleRun (getRequiredStyles tok) a w
          ((getRequiredStyles tok, a', w') :: rest)
          = (getRequiredStyles tok, a ++ w ++ a', w') :: rest := by
        simp [consStyleRun]
      rw [hmerge]
      cases rest with
      | nil => simp
      | cons r2 rest2 =>
        rw [List.chain'_cons] at hchain ⊢
        exact hchain
    · have houter : consStyleRun k a w ((getRequiredStyles tok, a', w') :: rest)
          = (k, a, w) :: (getRequiredStyles tok, a', w') :: rest := by
        simp [consStyleRun, hk]
      rw [houter, List.chain'_cons]
      exact ⟨fun hkk => hk hkk.symm, hchain⟩

theorem groupStyleRuns_chain (ts : List LayoutToken) :
    List.Chain' (fun p q : List String × PyStr × PyStr => p.1 ≠ q.1)
      (groupStyleRuns ts) := by
  cases ts with
  | nil => simp [groupStyleRuns]
  | cons tok ts =>
    rw [groupStyleRuns]
    exact consStyleRun_chain ts _ _ _

/-- C4: for every layout block whose tokens all have non-empty text, the
serialized children are exactly the minimal contiguous styled runs: the
(optional) coordinates item followed by one element per maximal run of
consecutive tokens with equal required-style sets (a plain text node for
the empty set, nested `hi` elements with the first listed style outermost
otherwise, the run's texts joined with their intra-run whitespace), with
each run's trailing whitespace flushed as a separate text node between
runs; adjacent runs always have distinct style sets, so adjacent
same-style tokens are never split into separate elements. -/
theorem c4TeiStyleRunMerging (block : LayoutBlock) (enableCoordinates : Bool)
    (coordsValue : String)
    (h : ∀ tok ∈ blockFlatTokens block, tok.text ≠ []) :
    iterLayoutBlockTeiChildren block enableCoordinates coordsValue
      = (if enableCoordinates then
          [TeiNode.attrsNode [("coords", coordsValue)]] else [])
        ++ emitStyleRuns (groupStyleRuns (blockFlatTokens block))
    ∧ List.Chain' (fun p q : List String × PyStr × PyStr => p.1 ≠ q.1)
        (groupStyleRuns (blockFlatTokens block)) := by
  constructor
  · have hconn : iterLayoutBlockTeiChildren block enableCoordinates coordsValue
        = teiFinalize ((blockFlatTokens block).foldl teiStep
            { out := if enableCoordinates then
                [TeiNode.attrsNode [("coords", coordsValue)]] else [],
              pendingStyles := [], pendingText := [],
              pendingWhitespace := [] }) := by
      simp only [iterLayoutBlockTeiChildren, teiFinalize, blockFlatTokens]
      rw [teiFoldlLines_eq_flatten]
    rw [hconn, teiFoldl_specAux, teiSpecAux_start _ h]
  · exact groupStyleRuns_chain _

/-- A bold font used in the C4 witness block. -/
def witnessBoldFont : LayoutFont := { fontId := ['f'], isBold := some true }

/-- The C4 witness block: one line alternating bold, bold, plain, bold. -/
def witnessAlternatingBlock : LayoutBlock :=
  ⟨[⟨[{ text := ['A'], font := witnessBoldFont, whitespace := [' '] },
      { text := ['B'], font := witnessBoldFont, whitespace := [' '] },
      { text := ['c'], whitespace := [' '] },
      { text := ['D'], font := witnessBoldFont, whitespace := [' '] }]⟩]⟩

/-- C4 (witness): the theorem applied to a block alternating bold and
plain tokens with non-empty texts. -/
theorem c4TeiStyleRunMergingWitness :
    (∀ tok ∈ blockFlatTokens witnessAlternatingBlock, tok.text ≠ [])
    ∧ iterLayoutBlockTeiChildren witnessAlternatingBlock false ""
      = (if false then [TeiNode.attrsNode [("coords", "")]] else [])
        ++ emitStyleRuns (groupStyleRuns
            (blockFlatTokens witnessAlternatingBlock)) :=
  ⟨by decide,
    (c4TeiStyleRunMerging witnessAlternatingBlock false "" (by decide)).1⟩
